import Mathlib

/-!
Verification of the scene-ingestion layer of the 4DGaussians repository
(file `scene/dataset_readers.py`), shallowly embedded in Lean.

Numeric values that the Python code holds as floats are modelled as exact
rationals (`ℚ`), except where Euclidean norms are required (`ℝ`).
-/

namespace FourDGS

/-! ### COLMAP evaluation split (`readColmapSceneInfo`, lines 173-180)

`cam_infos = sorted(cam_infos_unsorted, key = image_name)`; with `eval` on,
`train = [c for idx, c in enumerate(cam_infos) if idx % llffhold != 0]` and
`test  = [c for idx, c in enumerate(cam_infos) if idx % llffhold == 0]`;
with `eval` off `train = cam_infos`, `test = []`.
`cam_infos` below stands for the already name-sorted camera list. -/

def colmapSplit {α : Type _} (cam_infos : List α) (ev : Bool) (llffhold : ℕ) :
    List α × List α :=
  if ev then
    ((cam_infos.enum.filter (fun p => !(p.1 % llffhold == 0))).map Prod.snd,
     (cam_infos.enum.filter (fun p => p.1 % llffhold == 0)).map Prod.snd)
  else
    (cam_infos, [])

/-! ### Time normalization (`read_timeline`, lines 307-321)

`time_line = sorted(list(set(train times + test times)))`,
`max_time_float = max(time_line)`, and the mapper sends each key `time` of
`time_line` to `time / max_time_float`.  Python's `max` on an empty list
raises; `pythonMax`/`pythonMin` below return junk `0` there and are only ever
used on non-empty lists. -/

def raw_times (train_times test_times : List ℚ) : List ℚ := train_times ++ test_times

def time_line (train_times test_times : List ℚ) : List ℚ :=
  ((raw_times train_times test_times).dedup).insertionSort (· ≤ ·)

def pythonMax : List ℚ → ℚ
  | [] => 0
  | [a] => a
  | a :: b :: l => max a (pythonMax (b :: l))

def pythonMin : List ℚ → ℚ
  | [] => 0
  | [a] => a
  | a :: b :: l => min a (pythonMin (b :: l))

def max_time_float (train_times test_times : List ℚ) : ℚ :=
  pythonMax (time_line train_times test_times)

def timestamp_mapper (train_times test_times : List ℚ) (t : ℚ) : ℚ :=
  t / max_time_float train_times test_times

/-! ### Point-cloud store (`storePly`, lines 141-157; `fetchPly`, lines 133-139)

`storePly` writes one vertex element per point with fields
`x,y,z,nx,ny,nz,red,green,blue` (all `f4`), zero normals, and the `rgb`
values written unchanged; `fetchPly` reads those named fields back and
divides red/green/blue by 255.  A missing vertex field makes `plyfile`
raise (modelled as `Except.error`). -/

abbrev Vec3 : Type := ℚ × ℚ × ℚ

structure PlyVertex where
  x : ℚ
  y : ℚ
  z : ℚ
  nx : ℚ
  ny : ℚ
  nz : ℚ
  red : ℚ
  green : ℚ
  blue : ℚ
deriving DecidableEq

structure PlyFile where
  fields : List String
  verts : List PlyVertex
deriving DecidableEq

structure BasicPointCloud where
  points : List Vec3
  colors : List Vec3
  normals : List Vec3
deriving DecidableEq

def expectedFields : List String :=
  ["x", "y", "z", "nx", "ny", "nz", "red", "green", "blue"]

def storeVerts (xyz rgb : List Vec3) : List PlyVertex :=
  List.zipWith
    (fun p c => ⟨p.1, p.2.1, p.2.2, 0, 0, 0, c.1, c.2.1, c.2.2⟩) xyz rgb

def storePly (xyz rgb : List Vec3) : PlyFile :=
  ⟨expectedFields, storeVerts xyz rgb⟩

def fetchPlyVerts (verts : List PlyVertex) : BasicPointCloud :=
  ⟨verts.map (fun v => (v.x, v.y, v.z)),
   verts.map (fun v => (v.red / 255, v.green / 255, v.blue / 255)),
   verts.map (fun v => (v.nx, v.ny, v.nz))⟩

def fetchPly (f : PlyFile) : Except String BasicPointCloud :=
  if expectedFields.all (fun s => f.fields.contains s) then
    Except.ok (fetchPlyVerts f.verts)
  else
    Except.error "CorruptPointCloud"

/-! ### COLMAP scene assembly (`readColmapSceneInfo`, lines 159-208)

The reader splits the sorted cameras (lines 173-180), then loads the point
cloud with `try: pcd = fetchPly(ply_path) except: pcd = None` (lines 195-199)
and returns `SceneInfo` with `video_cameras = train_cam_infos` (line 204). -/

structure ColmapSceneInfo (α : Type _) where
  point_cloud : Option BasicPointCloud
  train_cameras : List α
  test_cameras : List α
  video_cameras : List α
deriving DecidableEq

def readColmapSceneInfo {α : Type _} (cam_infos : List α) (ev : Bool)
    (llffhold : ℕ) (ply : PlyFile) : ColmapSceneInfo α :=
  ⟨(fetchPly ply).toOption,
   (colmapSplit cam_infos ev llffhold).1,
   (colmapSplit cam_infos ev llffhold).2,
   (colmapSplit cam_infos ev llffhold).1⟩

/-! ### Brics hull carving and scene assembly (`readBricsSceneInfo`, lines 716-847)

A grid voxel's projection into a first-frame camera is abstracted into
`valid` (rounded pixel inside the image bounds, line 750) and `maskVal`
(the alpha-mask value at that pixel, line 755).  `grid_counter` starts at
`np.ones` (line 733) and adds `_m = mask > 0` at valid indices per camera
(line 757); the kept voxels are those with `grid_counter > 15` (line 768).
The reader then optionally subsamples to `num_pts` points (lines 799-800),
builds `video_cameras` only when `create_video_cams` is on (lines 806-836,
with ping-pong time indices `timesteps + timesteps[::-1]`, line 822), and
always returns a `SceneInfo` — there is no error path. -/

structure BricsCam (V : Type _) where
  valid : V → Bool
  maskVal : V → ℚ

def grid_counter {V : Type _} (cams : List (BricsCam V)) (v : V) : ℕ :=
  cams.foldl
    (fun acc c => if c.valid v && decide (0 < c.maskVal v) then acc + 1 else acc) 1

def grid_mask {V : Type _} (cams : List (BricsCam V)) (v : V) : Bool :=
  decide (15 < grid_counter cams v)

def bricsHullPoints {V : Type _} (cams : List (BricsCam V)) (grid : List V) : List V :=
  grid.filter (grid_mask cams)

def timesteps_rev (num_t : ℕ) : List ℕ :=
  List.range num_t ++ (List.range num_t).reverse

structure BricsSceneInfo (V P : Type _) where
  points : List V
  video_cameras : List (P × ℕ)
deriving DecidableEq

def bricsVideoCameras {P : Type _} (create_video_cams : Bool) (poses : List P)
    (num_t : ℕ) : List (P × ℕ) :=
  if create_video_cams then
    poses.enum.map
      (fun ip => (ip.2, (timesteps_rev num_t).getD (ip.1 % (timesteps_rev num_t).length) 0))
  else []

def readBricsSceneResult {V P : Type _} (cams : List (BricsCam V)) (grid : List V)
    (num_pts : ℕ) (subsample : List V → List V)
    (create_video_cams : Bool) (poses : List P) (num_t : ℕ) :
    Except String (BricsSceneInfo V P) :=
  let xyz := bricsHullPoints cams grid
  let xyz := if num_pts < xyz.length then subsample xyz else xyz
  Except.ok ⟨xyz, bricsVideoCameras create_video_cams poses num_t⟩

/-! ### Per-camera times (`readColmapCameras` line 128, `readBrics` lines 677-681) -/

def colmapCameraTimes (n : ℕ) : List ℚ :=
  (List.range n).map (fun idx : ℕ => (idx : ℚ) / (n : ℚ))

def bricsTimestamps (start_t num_t : ℕ) : List ℤ :=
  (List.range' start_t num_t).map (fun j : ℕ => (j : ℤ) - (start_t : ℤ))

/-! ### Scene normalization (`getNerfppNorm`, lines 65-86)

For each camera `W2C = getWorld2View2(cam.R, cam.T)`, `C2W = inv(W2C)`, and the
camera center is `C2W[:3, 3]`; the result is the centroid translation and
`radius = 1.1 × max ‖center - centroid‖`.  Real (float) arithmetic is modelled
over `ℝ`. -/

abbrev E3 : Type := EuclideanSpace ℝ (Fin 3)

structure ColmapCam where
  R : Matrix (Fin 3) (Fin 3) ℝ
  T : Fin 3 → ℝ

/-- Modelled from the spec: `getWorld2View2(R, t)` comes from
`utils.graphics_utils`, which is not among the provided sources; per the spec's
camera-normalizer contract it assembles the 4×4 world-to-camera transform with
rotation block `R.T`, translation column `t` and homogeneous row `(0,0,0,1)`
(the default `translate = (0,0,0)`, `scale = 1.0` leave it unchanged). -/
noncomputable def getWorld2View2 (R : Matrix (Fin 3) (Fin 3) ℝ) (T : Fin 3 → ℝ) :
    Matrix (Fin 4) (Fin 4) ℝ :=
  Matrix.of fun i j =>
    if hi : (i : ℕ) < 3 then
      if hj : (j : ℕ) < 3 then R ⟨j, hj⟩ ⟨i, hi⟩
      else T ⟨i, hi⟩
    else if (j : ℕ) < 3 then 0 else 1

/-- The camera's world-space center: the translation column `C2W[:3, 3]` of the
inverse `C2W = inv(W2C)` of the world-to-camera transform (lines 77-79). -/
noncomputable def camCenter (cam : ColmapCam) : E3 :=
  fun i : Fin 3 => (getWorld2View2 cam.R cam.T)⁻¹ i.castSucc 3

/-- Embeds `avg_cam_center = np.mean(cam_centers, axis=1)` (line 68). -/
noncomputable def centroid (l : List E3) : E3 := (l.length : ℝ)⁻¹ • l.sum

/-- Embeds `diagonal = np.max(dist)` over `dist = ‖center_i - centroid‖` (lines 70-71);
`np.max` raises on an empty array, modelled by the junk value 0 there. -/
noncomputable def diag (l : List E3) : ℝ :=
  (l.map fun c => ‖c - centroid l‖).foldr max 0

structure NerfNorm where
  translate : E3
  radius : ℝ

noncomputable def getNerfppNorm (cam_info : List ColmapCam) : NerfNorm :=
  ⟨-centroid (cam_info.map camCenter), diag (cam_info.map camCenter) * 1.1⟩

/-! ### Theorems -/

/-- Number of hold-out indices below `n`: the filtered count over
`range n` of indices divisible by `h`, which is `⌈n / h⌉`. -/
theorem length_filter_range_mod (h : ℕ) (hpos : 0 < h) (n : ℕ) :
    ((List.range n).filter (fun i => i % h == 0)).length = (n + h - 1) / h := by
  induction n with
  | zero => simp [Nat.div_eq_of_lt (by omega : h - 1 < h)]
  | succ n ih =>
    rw [List.range_succ, List.filter_append, List.length_append, ih]
    have hnh : n + 1 + h - 1 = (n + h - 1) + 1 := by omega
    have heq : (n + h - 1) + 1 = n + h := by omega
    have hdvd : h ∣ (n + h - 1) + 1 ↔ h ∣ n := by
      rw [heq]
      exact Nat.dvd_add_self_right
    rw [hnh, Nat.succ_div]
    by_cases hc : h ∣ n
    · simp [Nat.mod_eq_zero_of_dvd hc, hdvd, hc]
    · have hmod : ¬ n % h = 0 := fun hz => hc (Nat.dvd_of_mod_eq_zero hz)
      simp [hmod, hdvd, hc]

/-- Filtering an enumeration by an index predicate keeps as many elements as
filtering the corresponding index range. -/
theorem length_filter_enumFrom_mod {α : Type _} (h : ℕ) :
    ∀ (l : List α) (k : ℕ),
      ((List.enumFrom k l).filter (fun p => p.1 % h == 0)).length =
        ((List.range' k l.length).filter (fun i => i % h == 0)).length := by
  intro l
  induction l with
  | nil => intro k; rfl
  | cons a t ih =>
    intro k
    rw [List.enumFrom_cons, List.length_cons, List.range'_succ]
    by_cases hk : (k % h == 0) = true
    · simp [List.filter_cons, hk, ih]
    · simp only [Bool.not_eq_true] at hk
      simp [List.filter_cons, hk, ih]

/-- C1 (amended): with evaluation mode on and holdout stride `llffhold > 0`, the
name-sorted camera list is split so that test ++ train is a permutation of the
full camera set, train and test are disjoint (for distinct cameras), and the
test set has `⌈|cameras| / llffhold⌉` cameras (the sorted indices divisible by
the stride: `0, llffhold, 2·llffhold, …`). -/
theorem colmap_eval_split_spec {α : Type _} (cam_infos : List α) (h : ℕ)
    (hpos : 0 < h) (hnd : cam_infos.Nodup) :
    ((colmapSplit cam_infos true h).2 ++ (colmapSplit cam_infos true h).1).Perm cam_infos ∧
    (∀ x, x ∈ (colmapSplit cam_infos true h).1 → x ∉ (colmapSplit cam_infos true h).2) ∧
    ((colmapSplit cam_infos true h).2).length = (cam_infos.length + h - 1) / h := by
  refine ⟨?_, ?_, ?_⟩
  · have hperm := (List.filter_append_perm
      (fun p : ℕ × α => p.1 % h == 0) cam_infos.enum).map Prod.snd
    rw [List.map_append, List.enum_map_snd] at hperm
    simpa [colmapSplit] using hperm
  · intro x hxtr hxte
    simp only [colmapSplit, if_pos, List.mem_map, List.mem_filter] at hxtr hxte
    obtain ⟨⟨i, xi⟩, ⟨hmemi, hpi⟩, hxi⟩ := hxtr
    obtain ⟨⟨j, xj⟩, ⟨hmemj, hpj⟩, hxj⟩ := hxte
    subst hxi
    have hgi : cam_infos.get? i = some xi := List.mem_enum_iff_get?.mp hmemi
    have hgj : cam_infos.get? j = some xj := List.mem_enum_iff_get?.mp hmemj
    have hij : i = j := by
      apply List.get?_inj _ hnd
      · dsimp only at hxj
        rw [hgi, hgj, hxj]
      · obtain ⟨hlt, -⟩ := List.get?_eq_some.mp hgi
        exact hlt
    rw [hij] at hpi
    simp only [Bool.not_eq_true'] at hpi
    rw [hpi] at hpj
    exact Bool.false_ne_true hpj
  · simp only [colmapSplit, if_pos, List.length_map]
    have hbr := length_filter_enumFrom_mod h cam_infos 0
    rw [← List.range_eq_range'] at hbr
    rw [show cam_infos.enum = List.enumFrom 0 cam_infos from rfl, hbr,
      length_filter_range_mod h hpos]

/-- C1 counterexample: with 9 cameras and stride 8 the code's test split keeps
sorted indices 0 and 8, i.e. 2 cameras, while `⌊9 / 8⌋ = 1`; so the claimed
test-set size `⌊|cameras| / stride⌋` is wrong. -/
theorem colmap_eval_split_floor_counterexample :
    ¬ ((colmapSplit (List.range 9) true 8).2.length = (List.range 9).length / 8) := by
  decide

/-- Witness for `colmap_eval_split_spec`: the 16-camera, stride-8 scenario; the
test split is the cameras at sorted indices 0 and 8 and the train split keeps
the remaining 14. -/
theorem colmap_eval_split_spec_witness :
    (0 < 8 ∧ (List.range 16).Nodup) ∧
    (((colmapSplit (List.range 16) true 8).2 ++
        (colmapSplit (List.range 16) true 8).1).Perm (List.range 16) ∧
      (∀ x, x ∈ (colmapSplit (List.range 16) true 8).1 →
        x ∉ (colmapSplit (List.range 16) true 8).2) ∧
      ((colmapSplit (List.range 16) true 8).2).length =
        ((List.range 16).length + 8 - 1) / 8) ∧
    (colmapSplit (List.range 16) true 8).2 = [0, 8] ∧
    ((colmapSplit (List.range 16) true 8).1).length = 14 :=
  ⟨⟨by decide, by decide⟩,
    colmap_eval_split_spec (List.range 16) 8 (by decide) (by decide),
    by decide, by decide⟩

theorem pythonMax_mem : ∀ l : List ℚ, l ≠ [] → pythonMax l ∈ l
  | [], h => absurd rfl h
  | [a], _ => by simp [pythonMax]
  | a :: b :: l, _ => by
    have ih := pythonMax_mem (b :: l) (by simp)
    rw [pythonMax]
    rcases max_cases a (pythonMax (b :: l)) with ⟨hm, -⟩ | ⟨hm, -⟩ <;> rw [hm]
    · exact List.mem_cons_self a _
    · exact List.mem_cons_of_mem a ih

theorem le_pythonMax : ∀ l : List ℚ, ∀ x ∈ l, x ≤ pythonMax l
  | [], x, hx => absurd hx (List.not_mem_nil x)
  | [a], x, hx => by
    simp only [List.mem_singleton] at hx
    simp [pythonMax, hx]
  | a :: b :: l, x, hx => by
    rw [pythonMax]
    rcases List.mem_cons.mp hx with rfl | hx'
    · exact le_max_left _ _
    · exact le_trans (le_pythonMax (b :: l) x hx') (le_max_right _ _)

theorem pythonMax_congr (l l' : List ℚ) (hl : l ≠ []) (hl' : l' ≠ [])
    (hmem : ∀ x, x ∈ l ↔ x ∈ l') : pythonMax l = pythonMax l' :=
  le_antisymm
    (le_pythonMax l' _ ((hmem _).mp (pythonMax_mem l hl)))
    (le_pythonMax l _ ((hmem _).mpr (pythonMax_mem l' hl')))

theorem pythonMax_map_div (M : ℚ) (hM : 0 ≤ M) :
    ∀ l : List ℚ, pythonMax (l.map (fun t => t / M)) = pythonMax l / M
  | [] => by simp [pythonMax]
  | [a] => by simp [pythonMax]
  | a :: b :: l => by
    have ih := pythonMax_map_div M hM (b :: l)
    simp only [List.map_cons] at ih ⊢
    rw [pythonMax, pythonMax, ih, max_div_div_right hM]

theorem pythonMin_map_div (M : ℚ) (hM : 0 ≤ M) :
    ∀ l : List ℚ, pythonMin (l.map (fun t => t / M)) = pythonMin l / M
  | [] => by simp [pythonMin]
  | [a] => by simp [pythonMin]
  | a :: b :: l => by
    have ih := pythonMin_map_div M hM (b :: l)
    simp only [List.map_cons] at ih ⊢
    rw [pythonMin, pythonMin, ih, min_div_div_right hM]

/-- C2: the time-normalization mapper divides every declared frame time by the
maximum over the deduplicated, sorted union of train and test times; hence the
maximum normalized time over train+test equals 1 and the minimum equals
`min(raw_times) / max(raw_times)` (for a non-empty input with positive maximum
raw time, the domain on which the Python float division is meaningful). -/
theorem read_timeline_normalization (train_times test_times : List ℚ)
    (hne : raw_times train_times test_times ≠ [])
    (hpos : 0 < max_time_float train_times test_times) :
    pythonMax ((raw_times train_times test_times).map
      (timestamp_mapper train_times test_times)) = 1 ∧
    pythonMin ((raw_times train_times test_times).map
      (timestamp_mapper train_times test_times)) =
      pythonMin (raw_times train_times test_times) /
        pythonMax (raw_times train_times test_times) := by
  have hmemiff : ∀ x, x ∈ time_line train_times test_times ↔
      x ∈ raw_times train_times test_times := by
    intro x
    simp [time_line, List.mem_insertionSort, List.mem_dedup]
  have htl_ne : time_line train_times test_times ≠ [] := by
    obtain ⟨x, hx⟩ := List.exists_mem_of_ne_nil _ hne
    intro hnil
    have hx' := (hmemiff x).mpr hx
    rw [hnil] at hx'
    exact List.not_mem_nil x hx'
  have hMeq : max_time_float train_times test_times =
      pythonMax (raw_times train_times test_times) :=
    pythonMax_congr _ _ htl_ne hne hmemiff
  have hmap : (raw_times train_times test_times).map
      (timestamp_mapper train_times test_times) =
      (raw_times train_times test_times).map
        (fun t => t / max_time_float train_times test_times) := rfl
  constructor
  · rw [hmap, pythonMax_map_div _ hpos.le, hMeq, div_self]
    rw [hMeq] at hpos
    exact ne_of_gt hpos
  · rw [hmap, pythonMin_map_div _ hpos.le, hMeq]

/-- Witness for `read_timeline_normalization`: train times 0, 2, 4 and test
times 1, 3 (the spec's 0/0.5/1 + 0.25/0.75 scenario scaled by 4); the mapper
sends the maximum raw time 4 to 1 and the time 0 to 0. -/
theorem read_timeline_normalization_witness :
    (raw_times [0, 2, 4] [1, 3] ≠ [] ∧
      0 < max_time_float [0, 2, 4] [1, 3]) ∧
    (pythonMax ((raw_times [0, 2, 4] [1, 3]).map
        (timestamp_mapper [0, 2, 4] [1, 3])) = 1 ∧
      pythonMin ((raw_times [0, 2, 4] [1, 3]).map
        (timestamp_mapper [0, 2, 4] [1, 3])) =
        pythonMin (raw_times [0, 2, 4] [1, 3]) /
          pythonMax (raw_times [0, 2, 4] [1, 3])) ∧
    timestamp_mapper [0, 2, 4] [1, 3] 4 = 1 ∧
    timestamp_mapper [0, 2, 4] [1, 3] 0 = 0 :=
  ⟨⟨by decide, by decide⟩,
    read_timeline_normalization [0, 2, 4] [1, 3] (by decide) (by decide),
    by
      have hM : max_time_float [0, 2, 4] [1, 3] = 4 := by decide
      rw [timestamp_mapper, hM]
      norm_num,
    by
      have hM : max_time_float [0, 2, 4] [1, 3] = 4 := by decide
      rw [timestamp_mapper, hM]
      norm_num⟩

theorem storeVerts_points : ∀ (xyz rgb : List Vec3), xyz.length = rgb.length →
    (storeVerts xyz rgb).map (fun v => (v.x, v.y, v.z)) = xyz
  | [], [], _ => rfl
  | [], _ :: _, h => absurd h (by simp)
  | _ :: _, [], h => absurd h (by simp)
  | a :: xyz, b :: rgb, h => by
    have ih := storeVerts_points xyz rgb (by simpa using h)
    simp [storeVerts] at ih ⊢
    exact ih

theorem storeVerts_normals : ∀ (xyz rgb : List Vec3), xyz.length = rgb.length →
    (storeVerts xyz rgb).map (fun v => ((v.nx, v.ny, v.nz) : Vec3)) =
      List.replicate xyz.length ((0 : ℚ), (0 : ℚ), (0 : ℚ))
  | [], [], _ => rfl
  | [], _ :: _, h => absurd h (by simp)
  | _ :: _, [], h => absurd h (by simp)
  | a :: xyz, b :: rgb, h => by
    have ih := storeVerts_normals xyz rgb (by simpa using h)
    simp [storeVerts, List.replicate_succ] at ih ⊢
    exact ih

theorem storeVerts_colors_div : ∀ (xyz rgb : List Vec3), xyz.length = rgb.length →
    (storeVerts xyz rgb).map (fun v => ((v.red / 255, v.green / 255, v.blue / 255) : Vec3)) =
      rgb.map (fun c => ((c.1 / 255, c.2.1 / 255, c.2.2 / 255) : Vec3))
  | [], [], _ => rfl
  | [], _ :: _, h => absurd h (by simp)
  | _ :: _, [], h => absurd h (by simp)
  | a :: xyz, b :: rgb, h => by
    have ih := storeVerts_colors_div xyz rgb (by simpa using h)
    simp [storeVerts] at ih ⊢
    exact ih

/-- C3: saving positions and colors with `storePly` and re-loading with
`fetchPly` succeeds and yields the original positions exactly (hence within
32-bit float tolerance) and normals that are all zero. -/
theorem storePly_fetchPly_roundtrip (xyz rgb : List Vec3)
    (hlen : xyz.length = rgb.length) :
    fetchPly (storePly xyz rgb) = Except.ok (fetchPlyVerts (storeVerts xyz rgb)) ∧
    (fetchPlyVerts (storeVerts xyz rgb)).points = xyz ∧
    (fetchPlyVerts (storeVerts xyz rgb)).normals =
      List.replicate xyz.length ((0 : ℚ), (0 : ℚ), (0 : ℚ)) := by
  refine ⟨?_, ?_, ?_⟩
  · rw [fetchPly]
    simp [storePly, expectedFields]
  · exact storeVerts_points xyz rgb hlen
  · exact storeVerts_normals xyz rgb hlen

/-- Witness for `storePly_fetchPly_roundtrip` at a concrete one-point cloud. -/
theorem storePly_fetchPly_roundtrip_witness :
    (([((1 : ℚ), (2 : ℚ), (3 : ℚ))] : List Vec3).length =
        ([((7 : ℚ), (11 : ℚ), (13 : ℚ))] : List Vec3).length) ∧
    (fetchPly (storePly [((1 : ℚ), (2 : ℚ), (3 : ℚ))] [((7 : ℚ), (11 : ℚ), (13 : ℚ))]) =
        Except.ok (fetchPlyVerts (storeVerts [((1 : ℚ), (2 : ℚ), (3 : ℚ))]
          [((7 : ℚ), (11 : ℚ), (13 : ℚ))])) ∧
      (fetchPlyVerts (storeVerts [((1 : ℚ), (2 : ℚ), (3 : ℚ))]
          [((7 : ℚ), (11 : ℚ), (13 : ℚ))])).points = [((1 : ℚ), (2 : ℚ), (3 : ℚ))] ∧
      (fetchPlyVerts (storeVerts [((1 : ℚ), (2 : ℚ), (3 : ℚ))]
          [((7 : ℚ), (11 : ℚ), (13 : ℚ))])).normals =
        List.replicate ([((1 : ℚ), (2 : ℚ), (3 : ℚ))] : List Vec3).length
          ((0 : ℚ), (0 : ℚ), (0 : ℚ))) :=
  ⟨by decide,
    storePly_fetchPly_roundtrip [((1 : ℚ), (2 : ℚ), (3 : ℚ))]
      [((7 : ℚ), (11 : ℚ), (13 : ℚ))] (by decide)⟩

theorem storeVerts_colors_roundtrip :
    ∀ (xyz rgb : List Vec3), xyz.length = rgb.length →
    (storeVerts xyz
        (rgb.map (fun c => ((c.1 * 255, c.2.1 * 255, c.2.2 * 255) : Vec3)))).map
      (fun v => ((v.red / 255, v.green / 255, v.blue / 255) : Vec3)) = rgb
  | [], [], _ => rfl
  | [], _ :: _, h => absurd h (by simp)
  | _ :: _, [], h => absurd h (by simp)
  | a :: xyz, b :: rgb, h => by
    have ih := storeVerts_colors_roundtrip xyz rgb (by simpa using h)
    have h255 : ∀ q : ℚ, q * 255 / 255 = q := fun q =>
      mul_div_cancel_right₀ q (by norm_num)
    simp [storeVerts, h255] at ih ⊢
    exact ih

/-- C10: the store operation writes colors unchanged while the load divides
them by 255, so re-loading yields `rgb / 255`; colors round-trip unchanged
exactly when the caller pre-scales them by 255. -/
theorem storePly_fetchPly_colors (xyz rgb : List Vec3)
    (hlen : xyz.length = rgb.length) :
    (fetchPlyVerts (storeVerts xyz rgb)).colors =
      rgb.map (fun c => ((c.1 / 255, c.2.1 / 255, c.2.2 / 255) : Vec3)) ∧
    (fetchPlyVerts (storeVerts xyz
        (rgb.map (fun c => ((c.1 * 255, c.2.1 * 255, c.2.2 * 255) : Vec3))))).colors =
      rgb := by
  constructor
  · exact storeVerts_colors_div xyz rgb hlen
  · exact storeVerts_colors_roundtrip xyz rgb hlen

/-- Witness for `storePly_fetchPly_colors` at a concrete one-point cloud. -/
theorem storePly_fetchPly_colors_witness :
    (([((1 : ℚ), (2 : ℚ), (3 : ℚ))] : List Vec3).length =
        ([((51 : ℚ), (102 : ℚ), (255 : ℚ))] : List Vec3).length) ∧
    ((fetchPlyVerts (storeVerts [((1 : ℚ), (2 : ℚ), (3 : ℚ))]
          [((51 : ℚ), (102 : ℚ), (255 : ℚ))])).colors =
        ([((51 : ℚ), (102 : ℚ), (255 : ℚ))] : List Vec3).map
          (fun c => ((c.1 / 255, c.2.1 / 255, c.2.2 / 255) : Vec3)) ∧
      (fetchPlyVerts (storeVerts [((1 : ℚ), (2 : ℚ), (3 : ℚ))]
          (([((51 : ℚ), (102 : ℚ), (255 : ℚ))] : List Vec3).map
            (fun c => ((c.1 * 255, c.2.1 * 255, c.2.2 * 255) : Vec3))))).colors =
        [((51 : ℚ), (102 : ℚ), (255 : ℚ))]) :=
  ⟨by decide,
    storePly_fetchPly_colors [((1 : ℚ), (2 : ℚ), (3 : ℚ))]
      [((51 : ℚ), (102 : ℚ), (255 : ℚ))] (by decide)⟩

theorem grid_counter_eq {V : Type _} (cams : List (BricsCam V)) (v : V) :
    grid_counter cams v =
      1 + cams.countP (fun c => c.valid v && decide (0 < c.maskVal v)) := by
  rw [grid_counter]
  have hgen : ∀ (l : List (BricsCam V)) (acc : ℕ),
      l.foldl (fun acc c => if c.valid v && decide (0 < c.maskVal v) then acc + 1 else acc) acc =
        acc + l.countP (fun c => c.valid v && decide (0 < c.maskVal v)) := by
    intro l
    induction l with
    | nil => intro acc; simp
    | cons c t ih =>
      intro acc
      rw [List.foldl_cons, List.countP_cons]
      by_cases hc : (c.valid v && decide (0 < c.maskVal v)) = true
      · rw [if_pos hc, ih, hc]
        simp
        omega
      · rw [if_neg hc, ih]
        simp only [Bool.not_eq_true] at hc
        rw [hc]
        simp
  exact hgen cams 1

/-- C5: in the Brics hull carving, a grid voxel is kept (its `grid_mask` entry
is true, i.e. `grid_counter > 15` with the counter initialised to 1) iff it
projects inside the image bounds with a positive alpha-mask value in at least
15 of the first-frame cameras. -/
theorem brics_hull_carving_threshold {V : Type _} (cams : List (BricsCam V)) (v : V) :
    grid_mask cams v = true ↔
      15 ≤ cams.countP (fun c => c.valid v && decide (0 < c.maskVal v)) := by
  rw [grid_mask, decide_eq_true_iff, grid_counter_eq]
  omega

/-- C6 counterexample: 16 cameras that see nothing (every voxel projects
outside all frusta) carve the 8-voxel grid down to 0 points, yet the reader
returns a successful scene with an empty point list — no `InvalidGeometryError`
(no such error exists in the code) is raised. -/
theorem brics_empty_hull_counterexample :
    bricsHullPoints
        (List.replicate 16 (⟨fun _ => false, fun _ => 0⟩ : BricsCam ℕ))
        (List.range 8) = [] ∧
    readBricsSceneResult
        (List.replicate 16 (⟨fun _ => false, fun _ => 0⟩ : BricsCam ℕ))
        (List.range 8) 200000 id true [()] 1 =
      Except.ok ⟨[], bricsVideoCameras true [()] 1⟩ := by
  constructor
  · rfl
  · rfl

/-- C6 (amended): when the carving grid lies outside every camera frustum
(no camera's projection of any voxel is valid), the surviving point count is 0
and the reader still returns a successful `SceneInfo` with an empty point
cloud; it raises no error. -/
theorem brics_empty_hull_returns_ok {V P : Type _} (cams : List (BricsCam V))
    (grid : List V) (num_pts : ℕ) (subsample : List V → List V)
    (create_video_cams : Bool) (poses : List P) (num_t : ℕ)
    (hout : ∀ v ∈ grid, ∀ c ∈ cams, c.valid v = false) :
    bricsHullPoints cams grid = [] ∧
    readBricsSceneResult cams grid num_pts subsample create_video_cams poses num_t =
      Except.ok ⟨[], bricsVideoCameras create_video_cams poses num_t⟩ := by
  have hnil : bricsHullPoints cams grid = [] := by
    rw [bricsHullPoints, List.filter_eq_nil_iff]
    intro v hv
    rw [Bool.not_eq_true, grid_mask, decide_eq_false_iff_not, grid_counter_eq]
    have hcount : cams.countP (fun c => c.valid v && decide (0 < c.maskVal v)) = 0 := by
      rw [List.countP_eq_zero]
      intro c hc
      simp [hout v hv c hc]
    omega
  refine ⟨hnil, ?_⟩
  rw [readBricsSceneResult]
  simp only [hnil, List.length_nil, Nat.not_lt_zero, if_neg, ite_false]

/-- Witness for `brics_empty_hull_returns_ok`: 20 blind cameras over a 4-voxel
grid. -/
theorem brics_empty_hull_returns_ok_witness :
    (∀ v ∈ List.range 4,
      ∀ c ∈ List.replicate 20 (⟨fun _ => false, fun _ => 0⟩ : BricsCam ℕ),
        c.valid v = false) ∧
    (bricsHullPoints
        (List.replicate 20 (⟨fun _ => false, fun _ => 0⟩ : BricsCam ℕ))
        (List.range 4) = [] ∧
      readBricsSceneResult
          (List.replicate 20 (⟨fun _ => false, fun _ => 0⟩ : BricsCam ℕ))
          (List.range 4) 7 id false ([] : List Unit) 2 =
        Except.ok ⟨[], bricsVideoCameras false ([] : List Unit) 2⟩) :=
  have hout : ∀ v ∈ List.range 4,
      ∀ c ∈ List.replicate 20 (⟨fun _ => false, fun _ => 0⟩ : BricsCam ℕ),
        c.valid v = false := by
    intro v _ c hc
    rw [List.eq_of_mem_replicate hc]
  ⟨hout, brics_empty_hull_returns_ok _ _ 7 id false [] 2 hout⟩

/-- C7 counterexample: a vertex file whose schema lacks the required fields
makes the load fail, but `readColmapSceneInfo` swallows the failure
(`try: pcd = fetchPly(...) except: pcd = None`, lines 195-199) and returns a
`SceneInfo` whose point cloud is absent — the error does not propagate. -/
theorem colmap_corrupt_ply_counterexample :
    fetchPly ⟨["x", "y"], []⟩ = Except.error "CorruptPointCloud" ∧
    (readColmapSceneInfo ([0] : List ℕ) false 8 ⟨["x", "y"], []⟩).point_cloud = none := by
  constructor
  · rfl
  · rfl

/-- C7 (amended): loading a point-cloud file with a mismatched schema fails
with an error, but the reconstructed-scene reader catches any point-cloud load
failure and returns a `SceneInfo` with an absent (`None`) point cloud instead
of propagating the error. -/
theorem colmap_corrupt_ply_soft_fail {α : Type _} (cam_infos : List α) (ev : Bool)
    (llffhold : ℕ) (ply : PlyFile)
    (hbad : ¬ expectedFields.all (fun s => ply.fields.contains s) = true) :
    fetchPly ply = Except.error "CorruptPointCloud" ∧
    (readColmapSceneInfo cam_infos ev llffhold ply).point_cloud = none := by
  have herr : fetchPly ply = Except.error "CorruptPointCloud" := by
    rw [fetchPly, if_neg hbad]
  refine ⟨herr, ?_⟩
  rw [readColmapSceneInfo]
  simp [herr, Except.toOption]

/-- Witness for `colmap_corrupt_ply_soft_fail`: a two-field vertex schema. -/
theorem colmap_corrupt_ply_soft_fail_witness :
    (¬ expectedFields.all
        (fun s => (⟨["x", "z"], []⟩ : PlyFile).fields.contains s) = true) ∧
    (fetchPly ⟨["x", "z"], []⟩ = Except.error "CorruptPointCloud" ∧
      (readColmapSceneInfo ([3, 1] : List ℕ) true 8 ⟨["x", "z"], []⟩).point_cloud = none) :=
  ⟨by decide, colmap_corrupt_ply_soft_fail [3, 1] true 8 ⟨["x", "z"], []⟩ (by decide)⟩

/-- C8 counterexample: the Brics reader assigns raw frame offsets as camera
times (`timestamp = j - start_t`, line 680) with no normalization; with
`num_t = 3` it produces the time 2, which is outside `[0, 1]`. -/
theorem camera_time_unit_range_counterexample :
    ¬ (∀ t ∈ bricsTimestamps 0 3, (0 : ℤ) ≤ t ∧ t ≤ 1) := by
  decide

/-- C8 (amended): the COLMAP reader's times `idx / n` lie in `[0, 1]`, but the
Brics reader's times are the raw integer frame offsets `0, …, num_t - 1`,
which exceed 1 whenever `num_t ≥ 3`; they are not normalized to `[0, 1]`. -/
theorem camera_time_ranges (n start_t num_t : ℕ) :
    (∀ t ∈ colmapCameraTimes n, 0 ≤ t ∧ t ≤ 1) ∧
    (∀ t ∈ bricsTimestamps start_t num_t, 0 ≤ t ∧ t ≤ (num_t : ℤ) - 1) := by
  constructor
  · intro t ht
    simp only [colmapCameraTimes, List.mem_map, List.mem_range] at ht
    obtain ⟨idx, hidx, rfl⟩ := ht
    have hn : 0 < n := by omega
    have hnq : (0 : ℚ) < (n : ℚ) := by exact_mod_cast hn
    constructor
    · positivity
    · rw [div_le_one hnq]
      exact_mod_cast hidx.le
  · intro t ht
    simp only [bricsTimestamps, List.mem_map, List.mem_range'_1] at ht
    obtain ⟨j, hj, rfl⟩ := ht
    omega

/-- Witness for `camera_time_ranges`: one COLMAP camera (time 0) and the Brics
offsets for `start_t = 5`, `num_t = 3` (times 0, 1, 2). -/
theorem camera_time_ranges_witness :
    ((0 : ℚ) ∈ colmapCameraTimes 1 ∧ (0 ≤ (0 : ℚ) ∧ (0 : ℚ) ≤ 1)) ∧
    ((2 : ℤ) ∈ bricsTimestamps 5 3 ∧ (0 ≤ (2 : ℤ) ∧ (2 : ℤ) ≤ (3 : ℤ) - 1)) :=
  have hmem : (0 : ℚ) ∈ colmapCameraTimes 1 := by
    norm_num [colmapCameraTimes, List.range_succ]
  have hmem2 : (2 : ℤ) ∈ bricsTimestamps 5 3 := by decide
  ⟨⟨hmem, (camera_time_ranges 1 5 3).1 0 hmem⟩,
    ⟨hmem2, (camera_time_ranges 1 5 3).2 2 hmem2⟩⟩

/-- C9 counterexample: calling the Brics reader with `create_video_cams` off
returns a successful scene whose `video_cameras` list is empty, so not every
returned `SceneInfo` has a non-empty video-camera sequence. -/
theorem video_cameras_empty_counterexample :
    readBricsSceneResult
        (List.replicate 16 (⟨fun _ => true, fun _ => 1⟩ : BricsCam ℕ))
        (List.range 2) 10 id false [()] 1 =
      Except.ok ⟨[0, 1], []⟩ := by
  rfl

/-- C9 (amended): `video_cameras` is always defined; the COLMAP reader falls
back to the train cameras (non-empty whenever the train split is), and the
Brics reader produces a non-empty interpolated video path when
`create_video_cams` is on and at least one pose exists — but with
`create_video_cams` off the Brics reader returns an empty `video_cameras`
list. -/
theorem video_cameras_fallback {α V P : Type _} (cam_infos : List α) (ev : Bool)
    (llffhold : ℕ) (ply : PlyFile) (cams : List (BricsCam V)) (grid : List V)
    (num_pts : ℕ) (subsample : List V → List V) (poses : List P) (num_t : ℕ)
    (htr : (colmapSplit cam_infos ev llffhold).1 ≠ []) (hp : poses ≠ []) :
    (readColmapSceneInfo cam_infos ev llffhold ply).video_cameras =
      (colmapSplit cam_infos ev llffhold).1 ∧
    (readColmapSceneInfo cam_infos ev llffhold ply).video_cameras ≠ [] ∧
    ∀ res : BricsSceneInfo V P,
      readBricsSceneResult cams grid num_pts subsample true poses num_t =
        Except.ok res → res.video_cameras ≠ [] := by
  refine ⟨rfl, htr, ?_⟩
  intro res hres
  rw [readBricsSceneResult] at hres
  simp only [Except.ok.injEq] at hres
  rw [← hres]
  show bricsVideoCameras true poses num_t ≠ []
  rw [show bricsVideoCameras true poses num_t = poses.enum.map
      (fun ip => (ip.2, (timesteps_rev num_t).getD (ip.1 % (timesteps_rev num_t).length) 0))
    from rfl]
  intro hnil
  rw [List.map_eq_nil_iff] at hnil
  apply hp
  have hlen := congrArg List.length hnil
  simpa using hlen

/-- Witness for `video_cameras_fallback`: two COLMAP cameras without
evaluation split and one Brics pose. -/
theorem video_cameras_fallback_witness :
    ((colmapSplit ([4, 7] : List ℕ) false 8).1 ≠ [] ∧ ([()] : List Unit) ≠ []) ∧
    ((readColmapSceneInfo ([4, 7] : List ℕ) false 8 ⟨["x"], []⟩).video_cameras =
        (colmapSplit ([4, 7] : List ℕ) false 8).1 ∧
      (readColmapSceneInfo ([4, 7] : List ℕ) false 8 ⟨["x"], []⟩).video_cameras ≠ [] ∧
      ∀ res : BricsSceneInfo ℕ Unit,
        readBricsSceneResult ([] : List (BricsCam ℕ)) ([] : List ℕ) 5 id true [()] 1 =
          Except.ok res → res.video_cameras ≠ []) :=
  ⟨⟨by decide, by decide⟩,
    video_cameras_fallback [4, 7] false 8 ⟨["x"], []⟩ [] [] 5 id [()] 1
      (by decide) (by decide)⟩

/-- C4: `getNerfppNorm` computes camera centers from the inverse
world-to-camera transforms and returns radius `1.1 ×` the maximum distance of a
center from the centroid; this radius is invariant under any rigid rotation
(any linear isometry) of all camera centers about the centroid. -/
theorem scene_normalization_rotation_invariant (cam_info : List ColmapCam)
    (hne : cam_info ≠ []) (Q : E3 ≃ₗᵢ[ℝ] E3) :
    (getNerfppNorm cam_info).radius = diag (cam_info.map camCenter) * 1.1 ∧
    diag ((cam_info.map camCenter).map
        (fun c => Q (c - centroid (cam_info.map camCenter)) +
          centroid (cam_info.map camCenter))) =
      diag (cam_info.map camCenter) := by
  refine ⟨rfl, ?_⟩
  set l := cam_info.map camCenter with hl
  set μ := centroid l with hμ
  have hlne : l ≠ [] := by
    rw [hl]
    exact fun hnil => hne (List.map_eq_nil_iff.mp hnil)
  have hn : (l.length : ℝ) ≠ 0 := by
    have hpos := List.length_pos.mpr hlne
    exact_mod_cast Nat.pos_iff_ne_zero.mp hpos
  have hf : ∀ c : E3, Q (c - μ) + μ = Q c + (μ - Q μ) := by
    intro c
    rw [Q.map_sub]
    abel
  have hsum : ∀ L : List E3, (L.map (fun c => Q c + (μ - Q μ))).sum =
      Q L.sum + L.length • (μ - Q μ) := by
    intro L
    induction L with
    | nil => simp
    | cons a t ih =>
      simp only [List.map_cons, List.sum_cons, ih, List.length_cons, Q.map_add]
      rw [succ_nsmul]
      abel
  have hcentroid : centroid (l.map (fun c => Q (c - μ) + μ)) = μ := by
    have hmapeq : l.map (fun c => Q (c - μ) + μ) = l.map (fun c => Q c + (μ - Q μ)) :=
      List.map_congr_left (fun c _ => hf c)
    rw [centroid, hmapeq, hsum, List.length_map, smul_add,
      ← Nat.cast_smul_eq_nsmul ℝ l.length (μ - Q μ), smul_smul,
      inv_mul_cancel₀ hn, one_smul, ← Q.map_smul]
    rw [hμ, centroid]
    abel
  have hdists : (l.map (fun c => Q (c - μ) + μ)).map
      (fun c => ‖c - centroid (l.map (fun c => Q (c - μ) + μ))‖) =
      l.map (fun c => ‖c - μ‖) := by
    rw [hcentroid, List.map_map]
    refine List.map_congr_left ?_
    intro c _
    simp only [Function.comp]
    rw [add_sub_cancel_right, Q.norm_map]
  rw [diag, diag, hdists]

/-- Witness for `scene_normalization_rotation_invariant`: a single identity
camera and the identity rotation. -/
theorem scene_normalization_rotation_invariant_witness :
    (([⟨(1 : Matrix (Fin 3) (Fin 3) ℝ), (0 : Fin 3 → ℝ)⟩] : List ColmapCam) ≠ []) ∧
    ((getNerfppNorm [⟨(1 : Matrix (Fin 3) (Fin 3) ℝ), (0 : Fin 3 → ℝ)⟩]).radius =
        diag (([⟨(1 : Matrix (Fin 3) (Fin 3) ℝ), (0 : Fin 3 → ℝ)⟩] : List ColmapCam).map
          camCenter) * 1.1 ∧
      diag ((([⟨(1 : Matrix (Fin 3) (Fin 3) ℝ), (0 : Fin 3 → ℝ)⟩] : List ColmapCam).map
          camCenter).map
          (fun c => (LinearIsometryEquiv.refl ℝ E3)
              (c - centroid (([⟨(1 : Matrix (Fin 3) (Fin 3) ℝ), (0 : Fin 3 → ℝ)⟩] :
                List ColmapCam).map camCenter)) +
            centroid (([⟨(1 : Matrix (Fin 3) (Fin 3) ℝ), (0 : Fin 3 → ℝ)⟩] :
              List ColmapCam).map camCenter))) =
        diag (([⟨(1 : Matrix (Fin 3) (Fin 3) ℝ), (0 : Fin 3 → ℝ)⟩] : List ColmapCam).map
          camCenter)) :=
  ⟨by simp,
    scene_normalization_rotation_invariant
      [⟨(1 : Matrix (Fin 3) (Fin 3) ℝ), (0 : Fin 3 → ℝ)⟩] (by simp)
      (LinearIsometryEquiv.refl ℝ E3)⟩
